import Mathlib

/-!
Verification development for the face-recognition attendance backend
(`src/backend/main.py`).

The Python module keeps three pieces of in-process mutable state
(`student_frame_counts`, `known_face_encodings`, `known_face_metadata`)
and two relational tables (`students`, `attendance`).  We embed that
state shallowly as a `ServerState` record and each HTTP endpoint as a
pure state-transformer.  External collaborators (image decoding, the
face detector/embedder, the database engine) are modelled at their
boundary: a frame arrives either as a decode failure or as the list of
detections the detector produced for it, and the database tables are
ordinary lists with the unique-key behaviour of their schema.

Numeric conventions: Python floats become `ℚ`.  The code compares the
Euclidean distance `d` with `TOLERANCE = 0.55` and takes `argmin` over
distances; since `x ↦ x ^ 2` is strictly monotone on nonnegative reals,
`d < TOLERANCE ↔ d ^ 2 < TOLERANCE ^ 2` and the argmin over squared
distances is the argmin over distances.  We therefore carry the exact
squared distance (a rational) everywhere; the bridge lemmas
`distSq_nonneg` and `sqrt_lt_TOLERANCE_iff` record the equivalence.
The reported value `round(d, 2)` is computed exactly from the squared
distance by `roundDist2`.
-/

namespace SFRA

/-- A raw embedding blob as stored in the `students.encoding_binary`
column: `nbytes` is its byte length, and `vals` are the `float64`
values the buffer holds (used by `np.frombuffer`, which requires
`nbytes` to be a multiple of 8 and otherwise raises `ValueError`). -/
structure Blob where
  nbytes : ℕ
  vals : List ℚ
deriving DecidableEq

/-- One row of the `students` table. -/
structure StudentRow where
  student_id : String
  student_name : String
  encoding_binary : Blob
deriving DecidableEq

/-- One row of the `attendance` table (class `Registration`); the
autoincrement `id` and the `timestamp` column play no role in the
claims and are omitted. The table has a unique key on `student_id`. -/
structure RegRecord where
  student_id : String
  student_name : String
deriving DecidableEq

/-- One entry of `known_face_metadata`: the dict
`\x7b"name": ..., "id": ...\x7d` built at load time. -/
structure Meta where
  name : String
  id : String
deriving DecidableEq

/-- The whole mutable state of the backend process: the three
module-level structures plus the two database tables. -/
structure ServerState where
  student_frame_counts : List (String × ℕ)
  known_face_encodings : List (List ℚ)
  known_face_metadata : List Meta
  students : List StudentRow
  attendance : List RegRecord
deriving DecidableEq

/-- The design constant `FRAME_THRESHOLD = 5`. -/
def FRAME_THRESHOLD : ℕ := 5

/-- The design constant `TOLERANCE = 0.55`.  Written as `mkRat 55 100`, which the kernel
can evaluate; the lemma `TOLERANCE_eq` identifies it with `0.55`. -/
def TOLERANCE : ℚ := mkRat 55 100

/-- Rational addition computed on numerator and denominator.  The
standard `ℚ` operations of this toolchain are `@[irreducible]`, which
blocks kernel evaluation of concrete runs of the model; `qAdd_eq`
proves this function equal to `HAdd.hAdd`. -/
def qAdd (a b : ℚ) : ℚ := mkRat (a.num * b.den + b.num * a.den) (a.den * b.den)

/-- Rational subtraction computed on numerator and denominator;
`qSub_eq` proves it equal to `HSub.hSub`. -/
def qSub (a b : ℚ) : ℚ := mkRat (a.num * b.den - b.num * a.den) (a.den * b.den)

/-- Rational multiplication computed on numerator and denominator;
`qMul_eq` proves it equal to `HMul.hMul`. -/
def qMul (a b : ℚ) : ℚ := mkRat (a.num * b.num) (a.den * b.den)

/-- Lookup in a Python dict modelled as an insertion-ordered
association list. -/
def dictGet? : List (String × ℕ) → String → Option ℕ
  | [], _ => none
  | (k', v') :: rest, k => if k' = k then some v' else dictGet? rest k

/-- Assignment `d[k] = v` on a Python dict: replaces the value in
place if the key is present, appends otherwise. -/
def dictSet : List (String × ℕ) → String → ℕ → List (String × ℕ)
  | [], k, v => [(k, v)]
  | (k', v') :: rest, k, v =>
      if k' = k then (k, v) :: rest else (k', v') :: dictSet rest k v

/-- Indexing `l[i]` with default `0`, for distance lists. -/
def nthD (l : List ℚ) (i : ℕ) : ℚ := l.getD i 0

/-- Squared Euclidean distance between two equal-width embedding
vectors (`np.linalg.norm(a - b) ^ 2`); `distSq_eq` restates it with
the standard operations. -/
def distSq (a b : List ℚ) : ℚ :=
  (List.zipWith (fun u v => qMul (qSub u v) (qSub u v)) a b).foldr qAdd 0

/-- The distance list `face_recognition.face_distance(encs, x)`, carried as squared
distances. -/
def face_distanceSq (encs : List (List ℚ)) (x : List ℚ) : List ℚ :=
  encs.map (fun e => distSq e x)

/-- Model of `np.argmin`: the first index at which the list attains its
minimum (0 on the empty list, which the code never consults). -/
def argminIdx : List ℚ → ℕ
  | [] => 0
  | [_] => 0
  | x :: y :: ys =>
      if x ≤ nthD (y :: ys) (argminIdx (y :: ys)) then 0
      else argminIdx (y :: ys) + 1

/-- Linear search for the least `k` (starting from the given one) with
`target ≤ k * k`; the fuel argument makes the recursion structural. -/
def leastSqGeAux (target : ℕ) : ℕ → ℕ → ℕ
  | 0, k => k
  | fuel + 1, k => if target ≤ k * k then k else leastSqGeAux target fuel (k + 1)

/-- Least `k` with `m ≤ k * k` (fuel `m` suffices since `m ≤ m * m`). -/
def natCeilSqrt (m : ℕ) : ℕ := leastSqGeAux m m 0

/-- Floor of a nonnegative rational as a natural number. -/
def ratFloorNat (q : ℚ) : ℕ := q.num.toNat / q.den

/-- Nearest natural number to `Real.sqrt q` (ties rounded up), computed
exactly: the least `n` with `q < (n + 1/2) ^ 2`, i.e. the least `n`
with `(2n+1) ^ 2 ≥ ratFloorNat (4q) + 1`. -/
def sqrtRoundNearest (q : ℚ) : ℕ := natCeilSqrt (ratFloorNat (qMul 4 q) + 1) / 2

/-- Model of `round(d, 2)` for the Euclidean distance `d = Real.sqrt q`,
computed exactly from the squared distance `q`: the nearest multiple
of `1/100` to `Real.sqrt q` (exact-real idealisation of Python's
float rounding). -/
def roundDist2 (q : ℚ) : ℚ := mkRat (sqrtRoundNearest (qMul 10000 q)) 100

/-- A detection produced by the external detector on the downscaled
frame: a bounding box `(top, right, bottom, left)` in small-image
coordinates plus the face embedding. -/
structure Detection where
  top : ℤ
  right : ℤ
  bottom : ℤ
  left : ℤ
  encoding : List ℚ
deriving DecidableEq

/-- One entry of the `detected` response list: name, reported distance
(rounded, `none` for Python `None`), bounding box scaled back by 4. -/
structure DetOut where
  name : String
  distance : Option ℚ
  top : ℤ
  right : ℤ
  bottom : ℤ
  left : ℤ
deriving DecidableEq

/-- Build the response entry for one detection (box edges scaled by 4,
as in the source). -/
def detOut (name : String) (distance : Option ℚ) (d : Detection) : DetOut :=
  ⟨name, distance, d.top * 4, d.right * 4, d.bottom * 4, d.left * 4⟩

/-- The list `face_distances` of one detection against the current store. -/
def face_distances (st : ServerState) (d : Detection) : List ℚ :=
  face_distanceSq st.known_face_encodings d.encoding

/-- The index `best_match_index = np.argmin(face_distances)`. -/
def best_match_index (st : ServerState) (d : Detection) : ℕ :=
  argminIdx (face_distances st d)

/-- The value `face_distances[best_match_index]` (as a squared distance). -/
def best_distance (st : ServerState) (d : Detection) : ℚ :=
  nthD (face_distances st d) (best_match_index st d)

/-- Model of `db.add(Registration(...)); db.commit()` inside `try/except`:
the `attendance` table has a unique key on `student_id`, so the
commit raises on a duplicate and the `except` branch rolls back,
leaving the table unchanged. -/
def insertRegistration (att : List RegRecord) (id name : String) : List RegRecord :=
  if att.any (fun r => decide (r.student_id = id)) then att else att ++ [⟨id, name⟩]

/-- The body of the per-detection loop of `process_frame`
(`main.py` lines 168-197).  Returns `none` when the Python code would
raise an unhandled exception: `IndexError` on the
`known_face_metadata[best_match_index]` lookup or `KeyError` on the
`student_frame_counts[student_id] += 1` increment; both happen before
any state mutation, so the state at the raise point is the input
state. -/
def processOneDetection (st : ServerState) (d : Detection) :
    Option (ServerState × DetOut) :=
  if 0 < (face_distances st d).length then
    if best_distance st d < qMul TOLERANCE TOLERANCE then
      match st.known_face_metadata.get? (best_match_index st d) with
      | none => none
      | some m =>
        match dictGet? st.student_frame_counts m.id with
        | none => none
        | some c =>
          some ({ st with
                    student_frame_counts := dictSet st.student_frame_counts m.id (c + 1),
                    attendance :=
                      if c + 1 = FRAME_THRESHOLD then
                        insertRegistration st.attendance m.id m.name
                      else st.attendance },
                detOut m.name (some (roundDist2 (best_distance st d))) d)
    else
      some (st, detOut "Unknown" (some (roundDist2 (best_distance st d))) d)
  else
    some (st, detOut "Unknown" none d)

/-- Fold of `processOneDetection` over a frame's detections.  On an
unhandled exception the loop stops: the output list is discarded and
the state keeps the mutations of the detections already processed. -/
def processDetections : ServerState → List Detection → ServerState × Option (List DetOut)
  | st, [] => (st, some [])
  | st, d :: ds =>
    match processOneDetection st d with
    | none => (st, none)
    | some (st1, out) =>
      match processDetections st1 ds with
      | (st2, none) => (st2, none)
      | (st2, some outs) => (st2, some (out :: outs))

/-- Input of one `process_frame` call, at the external boundary:
either `cv2.imdecode` returned `None`, or the decoded frame on which
the detector produced the given detections. -/
inductive FrameInput
  | badImage
  | image (dets : List Detection)
deriving DecidableEq

/-- Outcome of one `process_frame` call: the decode-failure error
payload, an unhandled exception (HTTP 500), or the `detected` list. -/
inductive ProcessResult
  | decodeFailure
  | crashed
  | detected (outs : List DetOut)
deriving DecidableEq

/-- The endpoint `process_frame` (`main.py` lines 153-199). -/
def process_frame (st : ServerState) : FrameInput → ServerState × ProcessResult
  | .badImage => (st, .decodeFailure)
  | .image ds =>
    match processDetections st ds with
    | (st', none) => (st', .crashed)
    | (st', some outs) => (st', .detected outs)

/-- Sequential delivery of several frames; only the final state is
kept. -/
def processFrames (st : ServerState) (inps : List FrameInput) : ServerState :=
  inps.foldl (fun s inp => (process_frame s inp).1) st

/-- Model of `np.frombuffer(blob, dtype=np.float64)`: raises `ValueError`
(modelled as `none`) unless the byte length is a multiple of the
8-byte element size; otherwise decodes to the held values with no
check whatsoever of the resulting vector width. -/
def np_frombuffer_float64 (b : Blob) : Option (List ℚ) :=
  if b.nbytes % 8 = 0 then some b.vals else none

/-- The load loop of `start_registration` (`main.py` lines 127-135):
appends each student's decoded encoding and metadata and zeroes its
counter.  A `ValueError` from `np.frombuffer` aborts the loop with the
students before it already loaded (`false` = unhandled exception). -/
def loadStudents : ServerState → List StudentRow → ServerState × Bool
  | st, [] => (st, true)
  | st, s :: rest =>
    match np_frombuffer_float64 s.encoding_binary with
    | none => (st, false)
    | some encoding =>
      loadStudents
        { st with
            known_face_encodings := st.known_face_encodings ++ [encoding],
            known_face_metadata :=
              st.known_face_metadata ++ [⟨s.student_name, s.student_id⟩],
            student_frame_counts := dictSet st.student_frame_counts s.student_id 0 }
        rest

/-- The endpoint `start_registration` (`main.py` lines 118-137): clear the three
in-memory structures, delete and commit away all `attendance` rows,
then reload from the `students` table.  `true` = the endpoint returned
its success message, `false` = an unhandled decode exception. -/
def start_registration (st : ServerState) : ServerState × Bool :=
  loadStudents
    { st with
        student_frame_counts := [],
        known_face_encodings := [],
        known_face_metadata := [],
        attendance := [] }
    st.students

/-- Input of one `add_student` call at the external boundary: either
the image failed to decode, or `face_recognition.face_encodings`
returned the given list of embeddings. -/
inductive AddInput
  | badImage
  | image (encodings : List (List ℚ))
deriving DecidableEq

/-- Outcome of `add_student`. -/
inductive AddResult
  | decodeFailure
  | noFace
  | crashed
  | added
deriving DecidableEq

/-- The endpoint `add_student` (`main.py` lines 78-100): stores one row whose blob
is `encodings[0].tobytes()` (8 bytes per `float64` element).  A
duplicate `student_id` violates the unique key, so `db.commit()`
raises an uncaught `IntegrityError` and the row is not persisted. -/
def add_student (st : ServerState) (student_name student_id : String) :
    AddInput → ServerState × AddResult
  | .badImage => (st, .decodeFailure)
  | .image encodings =>
    match encodings with
    | [] => (st, .noFace)
    | e :: _ =>
      if st.students.any (fun s => decide (s.student_id = student_id)) then
        (st, .crashed)
      else
        ({ st with
             students := st.students ++ [⟨student_id, student_name, ⟨8 * e.length, e⟩⟩] },
         .added)

/-- The endpoint `delete_student` (`main.py` lines 103-115): removes the first (by
uniqueness, only) row with the given id, or answers 404 (`false`). -/
def delete_student (st : ServerState) (student_id : String) : ServerState × Bool :=
  if st.students.any (fun s => decide (s.student_id = student_id)) then
    ({ st with students := st.students.eraseP (fun s => decide (s.student_id = student_id)) },
     true)
  else
    (st, false)

/-- The identity a detection resolves to in the current state, if any:
`some X` iff the store is non-empty, the best squared distance is
under `TOLERANCE ^ 2`, and the metadata at the argmin index carries id
`X`. -/
def matchedId (st : ServerState) (d : Detection) : Option String :=
  if 0 < (face_distances st d).length ∧ best_distance st d < qMul TOLERANCE TOLERANCE then
    (st.known_face_metadata.get? (best_match_index st d)).map (fun m => m.id)
  else none

/-- Number of detections of a frame resolving to identity `X`. -/
def frameMatches (st : ServerState) (X : String) : FrameInput → ℕ
  | .badImage => 0
  | .image ds => ds.countP (fun d => decide (matchedId st d = some X))

/-- Number of rows for identity `X` in an attendance table. -/
def regCount (att : List RegRecord) (X : String) : ℕ :=
  att.countP (fun r => decide (r.student_id = X))

/-- Number of `attendance` rows for identity `X`. -/
def attCount (st : ServerState) (X : String) : ℕ :=
  regCount st.attendance X

/-- Whether identity `X` has a debounce counter that has reached the
threshold. -/
def countsGe (st : ServerState) (X : String) : Bool :=
  match dictGet? st.student_frame_counts X with
  | some c => decide (FRAME_THRESHOLD ≤ c)
  | none => false

/-- Structural coherence of the in-memory store: encodings and
metadata run in lockstep, and every metadata id has a debounce
counter.  This is what makes the metadata lookup and the counter
increment of `process_frame` total. -/
def Inv (st : ServerState) : Prop :=
  st.known_face_encodings.length = st.known_face_metadata.length ∧
  ∀ m ∈ st.known_face_metadata, (dictGet? st.student_frame_counts m.id).isSome

instance (st : ServerState) : Decidable (Inv st) := by
  unfold Inv; infer_instance

/-- Per-identity session invariant: the attendance table holds exactly
one row for `X` when `X`'s counter has reached the threshold and none
otherwise. -/
def SessionInv (st : ServerState) (X : String) : Prop :=
  attCount st X = if countsGe st X then 1 else 0

/-- States reachable from a fresh process (empty in-memory state,
arbitrary pre-existing database tables) by any sequence of calls to
the four mutating endpoints. -/
inductive Reachable : ServerState → Prop
  | init (students : List StudentRow) (attendance : List RegRecord) :
      Reachable ⟨[], [], [], students, attendance⟩
  | add (st : ServerState) (student_name student_id : String) (inp : AddInput) :
      Reachable st → Reachable (add_student st student_name student_id inp).1
  | del (st : ServerState) (student_id : String) :
      Reachable st → Reachable (delete_student st student_id).1
  | startReg (st : ServerState) :
      Reachable st → Reachable (start_registration st).1
  | frame (st : ServerState) (inp : FrameInput) :
      Reachable st → Reachable (process_frame st inp).1

/-! ### Concrete fixtures used to instantiate the theorems -/

/-- A one-student database row: "Alice", id "s1", an 8-byte blob
holding the 1-dimensional embedding `[0]`. -/
def exStudent : StudentRow := ⟨"s1", "Alice", ⟨8, [0]⟩⟩

/-- A state as at process start: empty in-memory state, one enrolled
student, one stale attendance row left over from an earlier session. -/
def exState0 : ServerState := ⟨[], [], [], [exStudent], [⟨"s1", "Alice"⟩]⟩

/-- The state right after `start_registration` on `exState0`. -/
def exState1 : ServerState := (start_registration exState0).1

/-- A detection whose embedding coincides with Alice's (distance 0). -/
def exDetA : Detection := ⟨1, 2, 3, 4, [0]⟩

/-- A detection at distance 1 from Alice's embedding (≥ TOLERANCE). -/
def exDetFar : Detection := ⟨5, 6, 7, 8, [1]⟩

/-- Five frames, each holding one detection of Alice. -/
def exFrames5 : List FrameInput := List.replicate 5 (.image [exDetA])

/-- A mid-session state in which Alice's counter stands at 4 and an
attendance row for her already exists (the conflict scenario). -/
def exStateC6 : ServerState :=
  ⟨[("s1", 4)], [[0]], [⟨"Alice", "s1"⟩], [exStudent], [⟨"s1", "Alice"⟩]⟩

/-! ### Bridge lemmas: the computable arithmetic is the standard one -/

theorem qAdd_eq (a b : ℚ) : qAdd a b = a + b := by
  have ha : ((a.den : ℚ)) ≠ 0 := by exact_mod_cast a.den_ne_zero
  have hb : ((b.den : ℚ)) ≠ 0 := by exact_mod_cast b.den_ne_zero
  conv_rhs => rw [← Rat.num_div_den a, ← Rat.num_div_den b]
  rw [qAdd, Rat.mkRat_eq_divInt, Rat.divInt_eq_div, div_add_div _ _ ha hb]
  push_cast
  ring_nf

theorem qSub_eq (a b : ℚ) : qSub a b = a - b := by
  have ha : ((a.den : ℚ)) ≠ 0 := by exact_mod_cast a.den_ne_zero
  have hb : ((b.den : ℚ)) ≠ 0 := by exact_mod_cast b.den_ne_zero
  conv_rhs => rw [← Rat.num_div_den a, ← Rat.num_div_den b]
  rw [qSub, Rat.mkRat_eq_divInt, Rat.divInt_eq_div, div_sub_div _ _ ha hb]
  push_cast
  ring_nf

theorem qMul_eq (a b : ℚ) : qMul a b = a * b := by
  have ha : ((a.den : ℚ)) ≠ 0 := by exact_mod_cast a.den_ne_zero
  have hb : ((b.den : ℚ)) ≠ 0 := by exact_mod_cast b.den_ne_zero
  conv_rhs => rw [← Rat.num_div_den a, ← Rat.num_div_den b]
  rw [qMul, Rat.mkRat_eq_divInt, Rat.divInt_eq_div, div_mul_div_comm]
  push_cast
  ring_nf

theorem TOLERANCE_eq : TOLERANCE = 0.55 := by
  rw [TOLERANCE, Rat.mkRat_eq_divInt, Rat.divInt_eq_div]
  norm_num

theorem foldr_qAdd_eq_sum (l : List ℚ) : l.foldr qAdd 0 = l.sum := by
  induction l with
  | nil => rfl
  | cons x xs ih => rw [List.foldr_cons, List.sum_cons, qAdd_eq, ih]

theorem distSq_eq (a b : List ℚ) :
    distSq a b = (List.zipWith (fun u v => (u - v) ^ 2) a b).sum := by
  rw [distSq, foldr_qAdd_eq_sum]
  have hf : (fun (u v : ℚ) => qMul (qSub u v) (qSub u v)) = fun u v => (u - v) ^ 2 := by
    funext u v
    rw [qMul_eq, qSub_eq, sq]
  rw [hf]

theorem distSq_nonneg (a b : List ℚ) : 0 ≤ distSq a b := by
  rw [distSq_eq]
  induction a generalizing b with
  | nil => cases b <;> simp
  | cons x xs ih =>
    cases b with
    | nil => simp
    | cons y ys =>
      simp only [List.zipWith_cons_cons, List.sum_cons]
      exact add_nonneg (sq_nonneg _) (ih ys)

/-- The comparison `d < TOLERANCE` the source performs on the Euclidean
distance `d = Real.sqrt q` is exactly the comparison on squared
distances the model performs. -/
theorem sqrt_lt_TOLERANCE_iff (q : ℚ) :
    Real.sqrt (q : ℝ) < ((TOLERANCE : ℚ) : ℝ) ↔ q < qMul TOLERANCE TOLERANCE := by
  have hT : (0 : ℝ) < ((TOLERANCE : ℚ) : ℝ) := by
    rw [TOLERANCE_eq]; norm_num
  rw [Real.sqrt_lt' hT, qMul_eq]
  rw [show (((TOLERANCE : ℚ) : ℝ)) ^ 2 = ((TOLERANCE * TOLERANCE : ℚ) : ℝ) by push_cast; ring]
  exact_mod_cast Iff.rfl

/-- Comparing Euclidean distances is comparing squared distances, so
the argmin the source takes over distances is the argmin the model
takes over squared distances. -/
theorem sqrt_order_bridge (a b : ℚ) (ha : 0 ≤ a) (hb : 0 ≤ b) :
    (Real.sqrt (a : ℝ) ≤ Real.sqrt (b : ℝ) ↔ a ≤ b) ∧
    (Real.sqrt (a : ℝ) < Real.sqrt (b : ℝ) ↔ a < b) := by
  have ha' : (0 : ℝ) ≤ (a : ℝ) := by exact_mod_cast ha
  have hb' : (0 : ℝ) ≤ (b : ℝ) := by exact_mod_cast hb
  refine ⟨?_, ?_⟩
  · rw [Real.sqrt_le_sqrt_iff hb']
    exact_mod_cast Iff.rfl
  · rw [Real.sqrt_lt_sqrt_iff ha']
    exact_mod_cast Iff.rfl

/-! ### Dictionary lemmas -/

theorem dictGet?_dictSet_self (d : List (String × ℕ)) (k : String) (v : ℕ) :
    dictGet? (dictSet d k v) k = some v := by
  induction d with
  | nil => simp [dictGet?, dictSet]
  | cons p rest ih =>
    by_cases h : p.1 = k
    · simp [dictGet?, dictSet, h]
    · simp [dictGet?, dictSet, h, ih]

theorem dictGet?_dictSet_ne (d : List (String × ℕ)) (k : String) (v : ℕ) (X : String)
    (h : X ≠ k) : dictGet? (dictSet d k v) X = dictGet? d X := by
  have hk : ¬ k = X := fun hk => h hk.symm
  induction d with
  | nil =>
    show dictGet? [(k, v)] X = none
    rw [dictGet?, if_neg hk, dictGet?]
  | cons p rest ih =>
    obtain ⟨k', v'⟩ := p
    by_cases hp : k' = k
    · subst hp
      rw [dictSet, if_pos rfl, dictGet?, dictGet?, if_neg hk, if_neg hk]
    · rw [dictSet, if_neg hp, dictGet?, dictGet?, ih]

theorem dictGet?_isSome_dictSet (d : List (String × ℕ)) (k : String) (v : ℕ) (X : String)
    (h : (dictGet? d X).isSome) : (dictGet? (dictSet d k v) X).isSome := by
  by_cases hX : X = k
  · subst hX; simp [dictGet?_dictSet_self]
  · rwa [dictGet?_dictSet_ne _ _ _ _ hX]

/-! ### Argmin lemmas -/

theorem nthD_cons_zero (x : ℚ) (xs : List ℚ) : nthD (x :: xs) 0 = x := rfl

theorem nthD_cons_succ (x : ℚ) (xs : List ℚ) (j : ℕ) :
    nthD (x :: xs) (j + 1) = nthD xs j := rfl

theorem argminIdx_lt_length (l : List ℚ) (h : l ≠ []) : argminIdx l < l.length := by
  induction l with
  | nil => exact absurd rfl h
  | cons x xs ih =>
    cases xs with
    | nil => simp [argminIdx]
    | cons y ys =>
      rw [argminIdx]
      split
      · simp
      · have := ih (by simp)
        simpa [Nat.add_lt_add_iff_right] using this

theorem argminIdx_le (l : List ℚ) : ∀ j < l.length, nthD l (argminIdx l) ≤ nthD l j := by
  induction l with
  | nil => intro j hj; simp at hj
  | cons x xs ih =>
    intro j hj
    cases xs with
    | nil =>
      have : j = 0 := by simpa using Nat.lt_one_iff.mp (by simpa using hj)
      subst this
      simp [argminIdx]
    | cons y ys =>
      rw [argminIdx]
      split
      · rename_i hle
        cases j with
        | zero => simp [nthD_cons_zero]
        | succ j' =>
          rw [nthD_cons_zero, nthD_cons_succ]
          exact le_trans hle (ih j' (by simpa using hj))
      · rename_i hgt
        cases j with
        | zero =>
          rw [nthD_cons_succ, nthD_cons_zero]
          exact le_of_lt (lt_of_not_le hgt)
        | succ j' =>
          rw [nthD_cons_succ, nthD_cons_succ]
          exact ih j' (by simpa using hj)

theorem argminIdx_first (l : List ℚ) :
    ∀ j < argminIdx l, nthD l (argminIdx l) < nthD l j := by
  induction l with
  | nil => intro j hj; simp [argminIdx] at hj
  | cons x xs ih =>
    intro j hj
    cases xs with
    | nil => simp [argminIdx] at hj
    | cons y ys =>
      by_cases hle : x ≤ nthD (y :: ys) (argminIdx (y :: ys))
      · rw [argminIdx, if_pos hle] at hj
        omega
      · rw [argminIdx, if_neg hle] at hj ⊢
        cases j with
        | zero =>
          rw [nthD_cons_succ, nthD_cons_zero]
          exact lt_of_not_le hle
        | succ j' =>
          rw [nthD_cons_succ, nthD_cons_succ]
          exact ih j' (by omega)

/-! ### Case analysis of the per-detection loop body -/

theorem face_distances_length (st : ServerState) (d : Detection) :
    (face_distances st d).length = st.known_face_encodings.length := by
  rw [face_distances, face_distanceSq, List.length_map]

theorem pod_empty (st : ServerState) (d : Detection)
    (h : st.known_face_encodings = []) :
    processOneDetection st d = some (st, detOut "Unknown" none d) := by
  have hlen : ¬ 0 < (face_distances st d).length := by
    rw [face_distances_length, h]
    simp
  rw [processOneDetection, if_neg hlen]

theorem pod_far (st : ServerState) (d : Detection)
    (h0 : st.known_face_encodings ≠ [])
    (h1 : ¬ best_distance st d < qMul TOLERANCE TOLERANCE) :
    processOneDetection st d =
      some (st, detOut "Unknown" (some (roundDist2 (best_distance st d))) d) := by
  have hlen : 0 < (face_distances st d).length := by
    rw [face_distances_length]
    exact List.length_pos.mpr h0
  rw [processOneDetection, if_pos hlen, if_neg h1]

theorem pod_match (st : ServerState) (d : Detection) (m : Meta) (c : ℕ)
    (h0 : st.known_face_encodings ≠ [])
    (h1 : best_distance st d < qMul TOLERANCE TOLERANCE)
    (hm : st.known_face_metadata.get? (best_match_index st d) = some m)
    (hc : dictGet? st.student_frame_counts m.id = some c) :
    processOneDetection st d =
      some ({ st with
                student_frame_counts := dictSet st.student_frame_counts m.id (c + 1),
                attendance :=
                  if c + 1 = FRAME_THRESHOLD then
                    insertRegistration st.attendance m.id m.name
                  else st.attendance },
            detOut m.name (some (roundDist2 (best_distance st d))) d) := by
  have hlen : 0 < (face_distances st d).length := by
    rw [face_distances_length]
    exact List.length_pos.mpr h0
  rw [processOneDetection, if_pos hlen, if_pos h1, hm]
  simp only [hc]

theorem pod_none_meta (st : ServerState) (d : Detection)
    (h0 : st.known_face_encodings ≠ [])
    (h1 : best_distance st d < qMul TOLERANCE TOLERANCE)
    (hm : st.known_face_metadata.get? (best_match_index st d) = none) :
    processOneDetection st d = none := by
  have hlen : 0 < (face_distances st d).length := by
    rw [face_distances_length]
    exact List.length_pos.mpr h0
  rw [processOneDetection, if_pos hlen, if_pos h1, hm]

theorem pod_none_counts (st : ServerState) (d : Detection) (m : Meta)
    (h0 : st.known_face_encodings ≠ [])
    (h1 : best_distance st d < qMul TOLERANCE TOLERANCE)
    (hm : st.known_face_metadata.get? (best_match_index st d) = some m)
    (hc : dictGet? st.student_frame_counts m.id = none) :
    processOneDetection st d = none := by
  have hlen : 0 < (face_distances st d).length := by
    rw [face_distances_length]
    exact List.length_pos.mpr h0
  rw [processOneDetection, if_pos hlen, if_pos h1, hm]
  simp only [hc]

/-- Inversion: a successful detection step either leaves the state
unchanged (no match) or performs exactly the increment-and-maybe-insert
transition of the match branch. -/
theorem pod_ok_inversion (st : ServerState) (d : Detection) (st' : ServerState)
    (out : DetOut) (h : processOneDetection st d = some (st', out)) :
    st' = st ∨
    ∃ m c, st.known_face_metadata.get? (best_match_index st d) = some m ∧
      dictGet? st.student_frame_counts m.id = some c ∧
      st' = { st with
                student_frame_counts := dictSet st.student_frame_counts m.id (c + 1),
                attendance :=
                  if c + 1 = FRAME_THRESHOLD then
                    insertRegistration st.attendance m.id m.name
                  else st.attendance } := by
  by_cases h0 : st.known_face_encodings = []
  · rw [pod_empty st d h0] at h
    simp only [Option.some.injEq, Prod.mk.injEq] at h
    exact Or.inl h.1.symm
  by_cases h1 : best_distance st d < qMul TOLERANCE TOLERANCE
  · match hm : st.known_face_metadata.get? (best_match_index st d) with
    | none =>
      rw [pod_none_meta st d h0 h1 hm] at h
      exact absurd h (by simp)
    | some m =>
      match hc : dictGet? st.student_frame_counts m.id with
      | none =>
        rw [pod_none_counts st d m h0 h1 hm hc] at h
        exact absurd h (by simp)
      | some c =>
        rw [pod_match st d m c h0 h1 hm hc] at h
        simp only [Option.some.injEq, Prod.mk.injEq] at h
        exact Or.inr ⟨m, c, rfl, hc, h.1.symm⟩
  · rw [pod_far st d h0 h1] at h
    simp only [Option.some.injEq, Prod.mk.injEq] at h
    exact Or.inl h.1.symm

/-! ### Effect of one detection step on the state -/

theorem face_distances_ne_nil (st : ServerState) (d : Detection)
    (h0 : st.known_face_encodings ≠ []) : face_distances st d ≠ [] := by
  intro hfd
  apply h0
  have hl := face_distances_length st d
  rw [hfd] at hl
  exact List.eq_nil_of_length_eq_zero hl.symm

/-- Under the structural invariant, the metadata at the argmin index
and the counter for its id both exist. -/
theorem meta_counts_of_inv (st : ServerState) (d : Detection) (hInv : Inv st)
    (h0 : st.known_face_encodings ≠ []) :
    ∃ m c, st.known_face_metadata.get? (best_match_index st d) = some m ∧
      dictGet? st.student_frame_counts m.id = some c := by
  have hlt : best_match_index st d < st.known_face_metadata.length := by
    rw [← hInv.1, ← face_distances_length st d]
    exact argminIdx_lt_length _ (face_distances_ne_nil st d h0)
  have hne : st.known_face_metadata.get? (best_match_index st d) ≠ none := by
    intro hnone
    rw [List.get?_eq_none] at hnone
    omega
  obtain ⟨m, hm⟩ := Option.ne_none_iff_exists'.mp hne
  obtain ⟨c, hc⟩ := Option.isSome_iff_exists.mp (hInv.2 m (List.get?_mem hm))
  exact ⟨m, c, hm, hc⟩

theorem pod_frozen (st : ServerState) (d : Detection) (st' : ServerState) (out : DetOut)
    (h : processOneDetection st d = some (st', out)) :
    st'.known_face_encodings = st.known_face_encodings ∧
    st'.known_face_metadata = st.known_face_metadata ∧
    st'.students = st.students := by
  rcases pod_ok_inversion st d st' out h with heq | ⟨m, c, _, _, heq⟩ <;>
    rw [heq] <;> exact ⟨rfl, rfl, rfl⟩

theorem pod_counts_monotone (st : ServerState) (d : Detection) (st' : ServerState)
    (out : DetOut) (h : processOneDetection st d = some (st', out)) (X : String) (c : ℕ)
    (hc : dictGet? st.student_frame_counts X = some c) :
    ∃ c', dictGet? st'.student_frame_counts X = some c' ∧ c ≤ c' := by
  rcases pod_ok_inversion st d st' out h with heq | ⟨m, c0, _, hc0, heq⟩
  · exact ⟨c, by rw [heq]; exact hc, le_refl c⟩
  · by_cases hX : X = m.id
    · subst hX
      rw [hc] at hc0
      obtain rfl : c = c0 := by injection hc0
      exact ⟨c + 1, by rw [heq]; exact dictGet?_dictSet_self _ _ _, Nat.le_succ c⟩
    · exact ⟨c, by rw [heq]; rw [dictGet?_dictSet_ne _ _ _ _ hX]; exact hc, le_refl c⟩

theorem pod_isSome_monotone (st : ServerState) (d : Detection) (st' : ServerState)
    (out : DetOut) (h : processOneDetection st d = some (st', out)) (X : String)
    (hs : (dictGet? st.student_frame_counts X).isSome) :
    (dictGet? st'.student_frame_counts X).isSome := by
  rcases pod_ok_inversion st d st' out h with heq | ⟨m, c0, _, _, heq⟩
  · rw [heq]; exact hs
  · rw [heq]; exact dictGet?_isSome_dictSet _ _ _ _ hs

theorem pod_inv (st : ServerState) (d : Detection) (st' : ServerState) (out : DetOut)
    (h : processOneDetection st d = some (st', out)) (hInv : Inv st) : Inv st' := by
  obtain ⟨he, hm, _⟩ := pod_frozen st d st' out h
  refine ⟨by rw [he, hm]; exact hInv.1, ?_⟩
  intro x hx
  rw [hm] at hx
  exact pod_isSome_monotone st d st' out h x.id (hInv.2 x hx)

/-- Totality of the loop body under the structural invariant: the
`IndexError`/`KeyError` paths are unreachable. -/
theorem pod_total (st : ServerState) (d : Detection) (hInv : Inv st) :
    ∃ st' out, processOneDetection st d = some (st', out) := by
  by_cases h0 : st.known_face_encodings = []
  · exact ⟨st, _, pod_empty st d h0⟩
  by_cases h1 : best_distance st d < qMul TOLERANCE TOLERANCE
  · obtain ⟨m, c, hm, hc⟩ := meta_counts_of_inv st d hInv h0
    exact ⟨_, _, pod_match st d m c h0 h1 hm hc⟩
  · exact ⟨st, _, pod_far st d h0 h1⟩

/-! ### The resolved identity of a detection -/

theorem matchedId_empty (st : ServerState) (d : Detection)
    (h : st.known_face_encodings = []) : matchedId st d = none := by
  rw [matchedId, if_neg]
  intro hand
  have := hand.1
  rw [face_distances_length, h] at this
  simp at this

theorem matchedId_far (st : ServerState) (d : Detection)
    (h1 : ¬ best_distance st d < qMul TOLERANCE TOLERANCE) :
    matchedId st d = none := by
  rw [matchedId, if_neg]
  intro hand
  exact h1 hand.2

theorem matchedId_match (st : ServerState) (d : Detection) (m : Meta)
    (h0 : st.known_face_encodings ≠ [])
    (h1 : best_distance st d < qMul TOLERANCE TOLERANCE)
    (hm : st.known_face_metadata.get? (best_match_index st d) = some m) :
    matchedId st d = some m.id := by
  have hlen : 0 < (face_distances st d).length := by
    rw [face_distances_length]
    exact List.length_pos.mpr h0
  rw [matchedId, if_pos ⟨hlen, h1⟩, hm]
  rfl

theorem matchedId_congr (st st' : ServerState) (d : Detection)
    (h1 : st'.known_face_encodings = st.known_face_encodings)
    (h2 : st'.known_face_metadata = st.known_face_metadata) :
    matchedId st' d = matchedId st d := by
  simp only [matchedId, best_distance, best_match_index, face_distances, h1, h2]

/-- Exact effect of one detection step on one identity's counter. -/
theorem pod_counts_exact (st : ServerState) (d : Detection) (st' : ServerState)
    (out : DetOut) (h : processOneDetection st d = some (st', out)) (hInv : Inv st)
    (X : String) (c : ℕ) (hc : dictGet? st.student_frame_counts X = some c) :
    dictGet? st'.student_frame_counts X
      = some (if matchedId st d = some X then c + 1 else c) := by
  by_cases h0 : st.known_face_encodings = []
  · rw [pod_empty st d h0] at h
    simp only [Option.some.injEq, Prod.mk.injEq] at h
    rw [← h.1, matchedId_empty st d h0, if_neg (by simp)]
    exact hc
  by_cases h1 : best_distance st d < qMul TOLERANCE TOLERANCE
  · obtain ⟨m, c0, hm, hc0⟩ := meta_counts_of_inv st d hInv h0
    rw [pod_match st d m c0 h0 h1 hm hc0] at h
    simp only [Option.some.injEq, Prod.mk.injEq] at h
    have hcounts : st'.student_frame_counts
        = dictSet st.student_frame_counts m.id (c0 + 1) := by
      rw [← h.1]
    by_cases hX : X = m.id
    · subst hX
      rw [matchedId_match st d m h0 h1 hm, if_pos rfl]
      rw [hc] at hc0
      obtain rfl : c = c0 := by injection hc0
      rw [hcounts]
      exact dictGet?_dictSet_self _ _ _
    · rw [matchedId_match st d m h0 h1 hm,
        if_neg (by simp only [Option.some.injEq]; exact fun hh => hX hh.symm)]
      rw [hcounts, dictGet?_dictSet_ne _ _ _ _ hX]
      exact hc
  · rw [pod_far st d h0 h1] at h
    simp only [Option.some.injEq, Prod.mk.injEq] at h
    rw [← h.1, matchedId_far st d h1, if_neg (by simp)]
    exact hc

/-! ### Effect of a whole frame -/

/-- Master specification of the per-frame detection loop under the
structural invariant: it never raises, answers one entry per
detection, leaves store, metadata and `students` table unchanged, and
advances each identity's counter by the number of detections that
resolved to it. -/
theorem processDetections_spec (ds : List Detection) :
    ∀ st : ServerState, Inv st →
    ∃ st' outs, processDetections st ds = (st', some outs) ∧
      outs.length = ds.length ∧ Inv st' ∧
      st'.known_face_encodings = st.known_face_encodings ∧
      st'.known_face_metadata = st.known_face_metadata ∧
      st'.students = st.students ∧
      (∀ X c, dictGet? st.student_frame_counts X = some c →
        dictGet? st'.student_frame_counts X
          = some (c + ds.countP (fun d => decide (matchedId st d = some X)))) := by
  induction ds with
  | nil =>
    intro st hInv
    exact ⟨st, [], rfl, rfl, hInv, rfl, rfl, rfl, by
      intro X c hc
      simp [hc]⟩
  | cons d ds ih =>
    intro st hInv
    obtain ⟨st1, out, hpod⟩ := pod_total st d hInv
    have hInv1 := pod_inv st d st1 out hpod hInv
    obtain ⟨he, hm, hs⟩ := pod_frozen st d st1 out hpod
    obtain ⟨st2, outs, hrec, hlen, hInv2, he2, hm2, hs2, hcnt2⟩ := ih st1 hInv1
    refine ⟨st2, out :: outs, ?_, by simp [hlen], hInv2,
      by rw [he2, he], by rw [hm2, hm], by rw [hs2, hs], ?_⟩
    · simp only [processDetections, hpod, hrec]
    · intro X c hc
      have hc1 := pod_counts_exact st d st1 out hpod hInv X c hc
      have h2 := hcnt2 X _ hc1
      rw [h2]
      have hfunX : (fun d' => decide (matchedId st1 d' = some X)) =
          (fun d' => decide (matchedId st d' = some X)) := by
        funext d'
        rw [matchedId_congr st st1 d' he hm]
      rw [hfunX]
      congr 1
      rw [List.countP_cons]
      by_cases hP : matchedId st d = some X
      · rw [if_pos hP, if_pos (by simpa using hP)]
        omega
      · rw [if_neg hP, if_neg (by simpa using hP)]
        omega

theorem process_frame_image_fst (st : ServerState) (ds : List Detection) :
    (process_frame st (.image ds)).1 = (processDetections st ds).1 := by
  rcases h : processDetections st ds with ⟨st', r⟩
  cases r <;> simp [process_frame, h]

/-- One frame under the structural invariant: the invariant is
preserved, the store is untouched, the call does not crash, and each
counter advances by the frame's match count. -/
theorem process_frame_spec (st : ServerState) (inp : FrameInput) (hInv : Inv st) :
    Inv (process_frame st inp).1 ∧
    (process_frame st inp).1.known_face_encodings = st.known_face_encodings ∧
    (process_frame st inp).1.known_face_metadata = st.known_face_metadata ∧
    (process_frame st inp).1.students = st.students ∧
    (process_frame st inp).2 ≠ ProcessResult.crashed ∧
    (∀ X c, dictGet? st.student_frame_counts X = some c →
      dictGet? (process_frame st inp).1.student_frame_counts X
        = some (c + frameMatches st X inp)) := by
  cases inp with
  | badImage =>
    refine ⟨hInv, rfl, rfl, rfl, by simp [process_frame], ?_⟩
    intro X c hc
    simp [process_frame, frameMatches, hc]
  | image ds =>
    obtain ⟨st', outs, hp, hlen, hInv', he, hm, hs, hcnt⟩ :=
      processDetections_spec ds st hInv
    have h1 : (process_frame st (.image ds)) = (st', .detected outs) := by
      simp [process_frame, hp]
    rw [h1]
    exact ⟨hInv', he, hm, hs, by simp, fun X c hc => hcnt X c hc⟩

theorem frameMatches_congr (st st' : ServerState) (X : String) (inp : FrameInput)
    (h1 : st'.known_face_encodings = st.known_face_encodings)
    (h2 : st'.known_face_metadata = st.known_face_metadata) :
    frameMatches st' X inp = frameMatches st X inp := by
  cases inp with
  | badImage => rfl
  | image ds =>
    rw [frameMatches, frameMatches]
    congr 1
    funext d
    rw [matchedId_congr st st' d h1 h2]

/-- A whole session's worth of frames under the structural invariant. -/
theorem processFrames_spec (frames : List FrameInput) :
    ∀ st : ServerState, Inv st →
    Inv (processFrames st frames) ∧
    (processFrames st frames).known_face_encodings = st.known_face_encodings ∧
    (processFrames st frames).known_face_metadata = st.known_face_metadata ∧
    (∀ X c, dictGet? st.student_frame_counts X = some c →
      dictGet? (processFrames st frames).student_frame_counts X
        = some (c + (frames.map (frameMatches st X)).sum)) := by
  induction frames with
  | nil =>
    intro st hInv
    exact ⟨hInv, rfl, rfl, by intro X c hc; simpa using hc⟩
  | cons f fs ih =>
    intro st hInv
    obtain ⟨hInv1, he1, hm1, _, _, hcnt1⟩ := process_frame_spec st f hInv
    obtain ⟨hInvN, heN, hmN, hcntN⟩ := ih (process_frame st f).1 hInv1
    have hstep : processFrames st (f :: fs)
        = processFrames (process_frame st f).1 fs := rfl
    refine ⟨by rw [hstep]; exact hInvN,
      by rw [hstep, heN, he1],
      by rw [hstep, hmN, hm1], ?_⟩
    intro X c hc
    have hc1 := hcnt1 X c hc
    have hres := hcntN X _ hc1
    rw [hstep, hres]
    have hmap : fs.map (frameMatches (process_frame st f).1 X)
        = fs.map (frameMatches st X) := by
      apply List.map_congr_left
      intro g _
      exact frameMatches_congr st (process_frame st f).1 X g he1 hm1
    rw [hmap]
    congr 1
    simp [List.sum_cons]
    omega

/-! ### Counters never decrease, on any state -/

theorem processDetections_monotone (ds : List Detection) :
    ∀ (st : ServerState) (X : String) (c : ℕ),
    dictGet? st.student_frame_counts X = some c →
    ∃ c', dictGet? (processDetections st ds).1.student_frame_counts X = some c' ∧
      c ≤ c' := by
  induction ds with
  | nil => intro st X c hc; exact ⟨c, hc, le_refl c⟩
  | cons d ds ih =>
    intro st X c hc
    rcases hpod : processOneDetection st d with _ | ⟨st1, out⟩
    · refine ⟨c, ?_, le_refl c⟩
      simp only [processDetections, hpod]
      exact hc
    · obtain ⟨c1, hc1, hle1⟩ := pod_counts_monotone st d st1 out hpod X c hc
      obtain ⟨c2, hc2, hle2⟩ := ih st1 X c1 hc1
      refine ⟨c2, ?_, le_trans hle1 hle2⟩
      rcases hrec : processDetections st1 ds with ⟨st2, r⟩
      rw [hrec] at hc2
      cases r <;> simp only [processDetections, hpod, hrec] <;> exact hc2

theorem process_frame_monotone (st : ServerState) (inp : FrameInput) (X : String)
    (c : ℕ) (hc : dictGet? st.student_frame_counts X = some c) :
    ∃ c', dictGet? (process_frame st inp).1.student_frame_counts X = some c' ∧
      c ≤ c' := by
  cases inp with
  | badImage => exact ⟨c, hc, le_refl c⟩
  | image ds =>
    rw [process_frame_image_fst]
    exact processDetections_monotone ds st X c hc

/-! ### The per-identity session invariant -/

theorem countsGe_congr (st st' : ServerState) (X : String)
    (h : dictGet? st'.student_frame_counts X = dictGet? st.student_frame_counts X) :
    countsGe st' X = countsGe st X := by
  rw [countsGe, countsGe, h]

theorem countsGe_of_some (st : ServerState) (X : String) (c : ℕ)
    (h : dictGet? st.student_frame_counts X = some c) :
    countsGe st X = decide (FRAME_THRESHOLD ≤ c) := by
  rw [countsGe, h]

theorem regCount_append_single (att : List RegRecord) (r : RegRecord) (X : String) :
    regCount (att ++ [r]) X
      = regCount att X + if r.student_id = X then 1 else 0 := by
  rw [regCount, regCount, List.countP_append, List.countP_cons]
  simp

theorem insertRegistration_absent (att : List RegRecord) (id name : String)
    (h : regCount att id = 0) :
    insertRegistration att id name = att ++ [⟨id, name⟩] := by
  rw [insertRegistration, if_neg]
  intro hany
  rw [List.any_eq_true] at hany
  obtain ⟨r, hr, hrid⟩ := hany
  rw [regCount, List.countP_eq_zero] at h
  exact h r hr hrid

theorem insertRegistration_present (att : List RegRecord) (id name : String)
    (h : regCount att id ≠ 0) :
    insertRegistration att id name = att := by
  rw [insertRegistration, if_pos]
  rw [List.any_eq_true]
  have hpos : 0 < regCount att id := Nat.pos_of_ne_zero h
  rw [regCount, List.countP_pos_iff] at hpos
  obtain ⟨r, hr, hrid⟩ := hpos
  exact ⟨r, hr, hrid⟩

theorem regCount_insertRegistration_ne (att : List RegRecord) (id name X : String)
    (h : X ≠ id) :
    regCount (insertRegistration att id name) X = regCount att X := by
  by_cases hab : regCount att id = 0
  · rw [insertRegistration_absent att id name hab, regCount_append_single]
    rw [if_neg (fun hh => h hh.symm)]
    omega
  · rw [insertRegistration_present att id name hab]

/-- One successful detection step preserves the session invariant for
every identity: the unique commit happens exactly at the
threshold-crossing increment. -/
theorem pod_sessionInv (st : ServerState) (d : Detection) (st' : ServerState)
    (out : DetOut) (h : processOneDetection st d = some (st', out)) (X : String)
    (hS : SessionInv st X) : SessionInv st' X := by
  rcases pod_ok_inversion st d st' out h with heq | ⟨m, c0, hm, hc0, heq⟩
  · rw [heq]
    exact hS
  · rw [SessionInv, attCount] at hS ⊢
    have hatt : st'.attendance
        = (if c0 + 1 = FRAME_THRESHOLD then
            insertRegistration st.attendance m.id m.name
          else st.attendance) := by rw [heq]
    have hcnt : st'.student_frame_counts
        = dictSet st.student_frame_counts m.id (c0 + 1) := by rw [heq]
    by_cases hX : X = m.id
    · subst hX
      have hge' : countsGe st' m.id = decide (FRAME_THRESHOLD ≤ c0 + 1) := by
        refine countsGe_of_some st' m.id (c0 + 1) ?_
        rw [hcnt]
        exact dictGet?_dictSet_self _ _ _
      have hgeS : countsGe st m.id = decide (FRAME_THRESHOLD ≤ c0) :=
        countsGe_of_some st m.id c0 hc0
      by_cases h5 : c0 + 1 = FRAME_THRESHOLD
      · have hnot : ¬ FRAME_THRESHOLD ≤ c0 := by omega
        rw [hgeS, decide_eq_false hnot] at hS
        simp only [Bool.false_eq_true, if_false] at hS
        rw [hatt, if_pos h5, insertRegistration_absent st.attendance m.id m.name hS,
          regCount_append_single, hS, hge', h5]
        simp
      · have hiff : (FRAME_THRESHOLD ≤ c0 + 1) ↔ (FRAME_THRESHOLD ≤ c0) := by omega
        rw [hatt, if_neg h5, hge', decide_eq_decide.mpr hiff, ← hgeS]
        exact hS
    · have hgeq : countsGe st' X = countsGe st X := by
        refine countsGe_congr st st' X ?_
        rw [hcnt]
        exact dictGet?_dictSet_ne _ _ _ _ hX
      rw [hgeq, hatt]
      by_cases h5 : c0 + 1 = FRAME_THRESHOLD
      · rw [if_pos h5, regCount_insertRegistration_ne _ _ _ _ hX]
        exact hS
      · rw [if_neg h5]
        exact hS

theorem processDetections_sessionInv (ds : List Detection) :
    ∀ (st : ServerState) (X : String), SessionInv st X →
      SessionInv (processDetections st ds).1 X := by
  induction ds with
  | nil => intro st X hS; exact hS
  | cons d ds ih =>
    intro st X hS
    rcases hpod : processOneDetection st d with _ | ⟨st1, out⟩
    · simp only [processDetections, hpod]
      exact hS
    · have hS1 := pod_sessionInv st d st1 out hpod X hS
      have := ih st1 X hS1
      rcases hrec : processDetections st1 ds with ⟨st2, r⟩
      rw [hrec] at this
      cases r <;> simp only [processDetections, hpod, hrec] <;> exact this

theorem process_frame_sessionInv (st : ServerState) (inp : FrameInput) (X : String)
    (hS : SessionInv st X) : SessionInv (process_frame st inp).1 X := by
  cases inp with
  | badImage => exact hS
  | image ds =>
    rw [process_frame_image_fst]
    exact processDetections_sessionInv ds st X hS

theorem processFrames_sessionInv (frames : List FrameInput) :
    ∀ (st : ServerState) (X : String), SessionInv st X →
      SessionInv (processFrames st frames) X := by
  induction frames with
  | nil => intro st X hS; exact hS
  | cons f fs ih =>
    intro st X hS
    exact ih (process_frame st f).1 X (process_frame_sessionInv st f X hS)

/-! ### Session start: the load loop -/

theorem loadStudents_frozen (rows : List StudentRow) :
    ∀ st : ServerState, (loadStudents st rows).1.attendance = st.attendance ∧
      (loadStudents st rows).1.students = st.students := by
  induction rows with
  | nil => intro st; exact ⟨rfl, rfl⟩
  | cons s rows ih =>
    intro st
    rcases hdec : np_frombuffer_float64 s.encoding_binary with _ | v
    · simp [loadStudents, hdec]
    · simp only [loadStudents, hdec]
      exact ih _

theorem loadStudents_inv (rows : List StudentRow) :
    ∀ st : ServerState, Inv st → Inv (loadStudents st rows).1 := by
  induction rows with
  | nil => intro st h; exact h
  | cons s rows ih =>
    intro st hInv
    rcases hdec : np_frombuffer_float64 s.encoding_binary with _ | v
    · simp only [loadStudents, hdec]
      exact hInv
    · simp only [loadStudents, hdec]
      apply ih
      constructor
      · simp [hInv.1]
      · intro m hm
        rw [List.mem_append] at hm
        rcases hm with hm | hm
        · exact dictGet?_isSome_dictSet _ _ _ _ (hInv.2 m hm)
        · have hm' : m = (⟨s.student_name, s.student_id⟩ : Meta) := by
            simpa using hm
          rw [hm']
          rw [show (⟨s.student_name, s.student_id⟩ : Meta).id = s.student_id from rfl]
          rw [dictGet?_dictSet_self]
          rfl

theorem loadStudents_zero (rows : List StudentRow) :
    ∀ st : ServerState,
      (∀ X c, dictGet? st.student_frame_counts X = some c → c = 0) →
      ∀ X c, dictGet? (loadStudents st rows).1.student_frame_counts X = some c →
        c = 0 := by
  induction rows with
  | nil => intro st h; exact h
  | cons s rows ih =>
    intro st h0
    rcases hdec : np_frombuffer_float64 s.encoding_binary with _ | v
    · simp only [loadStudents, hdec]
      exact h0
    · simp only [loadStudents, hdec]
      apply ih
      intro X c hc
      by_cases hX : X = s.student_id
      · subst hX
        rw [dictGet?_dictSet_self] at hc
        injection hc with hc
        exact hc.symm
      · rw [dictGet?_dictSet_ne _ _ _ _ hX] at hc
        exact h0 X c hc

/-- Successful reload: every stored blob has a byte length divisible
by 8, so the whole `students` table is decoded and loaded in order. -/
theorem loadStudents_ok (rows : List StudentRow) :
    ∀ st : ServerState, (∀ s ∈ rows, s.encoding_binary.nbytes % 8 = 0) →
    loadStudents st rows =
      ({ st with
           known_face_encodings :=
             st.known_face_encodings ++ rows.map (fun s => s.encoding_binary.vals),
           known_face_metadata :=
             st.known_face_metadata
               ++ rows.map (fun s => (⟨s.student_name, s.student_id⟩ : Meta)),
           student_frame_counts :=
             rows.foldl (fun d s => dictSet d s.student_id 0)
               st.student_frame_counts },
       true) := by
  induction rows with
  | nil =>
    intro st _
    simp [loadStudents]
  | cons s rows ih =>
    intro st hwf
    have hs : np_frombuffer_float64 s.encoding_binary
        = some s.encoding_binary.vals := by
      rw [np_frombuffer_float64, if_pos (hwf s (by simp))]
    simp only [loadStudents, hs]
    rw [ih _ (fun t ht => hwf t (by simp [ht]))]
    simp [List.append_assoc]

theorem foldl_dictSet_zero_get (rows : List StudentRow) :
    ∀ (d0 : List (String × ℕ)) (X : String),
      dictGet? (rows.foldl (fun d s => dictSet d s.student_id 0) d0) X
        = if ∃ s ∈ rows, s.student_id = X then some 0 else dictGet? d0 X := by
  induction rows with
  | nil => intro d0 X; simp
  | cons s rows ih =>
    intro d0 X
    rw [List.foldl_cons, ih]
    by_cases hex : ∃ t ∈ rows, t.student_id = X
    · rw [if_pos hex, if_pos (by
        obtain ⟨t, ht, htX⟩ := hex
        exact ⟨t, by simp [ht], htX⟩)]
    · rw [if_neg hex]
      by_cases hX : s.student_id = X
      · rw [if_pos ⟨s, by simp, hX⟩, ← hX]
        exact dictGet?_dictSet_self _ _ _
      · rw [if_neg (by
          rintro ⟨t, ht, htX⟩
          rcases List.mem_cons.mp ht with rfl | ht
          · exact hX htX
          · exact hex ⟨t, ht, htX⟩)]
        exact dictGet?_dictSet_ne _ _ _ _ (fun hh => hX hh.symm)

theorem countsGe_of_none (st : ServerState) (X : String)
    (h : dictGet? st.student_frame_counts X = none) : countsGe st X = false := by
  rw [countsGe, h]

theorem start_registration_attendance (st : ServerState) :
    (start_registration st).1.attendance = [] := by
  rw [start_registration]
  exact (loadStudents_frozen st.students _).1

theorem start_registration_students (st : ServerState) :
    (start_registration st).1.students = st.students := by
  rw [start_registration]
  exact (loadStudents_frozen st.students _).2

theorem start_registration_inv (st : ServerState) :
    Inv (start_registration st).1 := by
  rw [start_registration]
  apply loadStudents_inv
  exact ⟨rfl, by intro m hm; exact absurd hm (List.not_mem_nil m)⟩

theorem start_registration_zero (st : ServerState) :
    ∀ X c, dictGet? (start_registration st).1.student_frame_counts X = some c →
      c = 0 := by
  rw [start_registration]
  apply loadStudents_zero
  intro X c hc
  exact absurd hc (by rw [show dictGet? [] X = none from rfl]; simp)

/-- After `start_registration`, whether the load succeeded or raised
half-way, every identity satisfies the session invariant: no
attendance rows, no counter at threshold. -/
theorem start_registration_sessionInv (st : ServerState) (X : String) :
    SessionInv (start_registration st).1 X := by
  rw [SessionInv, attCount, start_registration_attendance]
  rcases hg : dictGet? (start_registration st).1.student_frame_counts X with _ | c
  · rw [countsGe_of_none _ _ hg]
    rfl
  · have hc0 : c = 0 := start_registration_zero st X c hg
    subst hc0
    rw [countsGe_of_some _ _ _ hg]
    rfl

/-! ### Reachability and the structural invariant -/

theorem add_student_inv (st : ServerState) (n i : String) (inp : AddInput)
    (h : Inv st) : Inv (add_student st n i inp).1 := by
  cases inp with
  | badImage => exact h
  | image encodings =>
    cases encodings with
    | nil => exact h
    | cons e rest =>
      by_cases hdup : st.students.any (fun s => decide (s.student_id = i))
      · simp only [add_student, hdup]
        exact h
      · simp only [add_student, Bool.not_eq_true] at hdup
        simp only [add_student, hdup]
        exact h

theorem delete_student_inv (st : ServerState) (i : String) (h : Inv st) :
    Inv (delete_student st i).1 := by
  by_cases hmem : st.students.any (fun s => decide (s.student_id = i))
  · simp only [delete_student, hmem, if_true]
    exact h
  · simp only [delete_student, Bool.not_eq_true] at hmem
    simp only [delete_student, hmem]
    exact h

theorem reachable_inv (st : ServerState) (h : Reachable st) : Inv st := by
  induction h with
  | init students attendance =>
    exact ⟨rfl, by intro m hm; exact absurd hm (List.not_mem_nil m)⟩
  | add st n i inp _ ih => exact add_student_inv st n i inp ih
  | del st i _ ih => exact delete_student_inv st i ih
  | startReg st _ _ => exact start_registration_inv st
  | frame st inp _ ih => exact (process_frame_spec st inp ih).1

/-! ### Claims -/

/-- Claim C1: in any session — one `start_registration` followed by
any sequence of `process_frame` calls — at most one attendance record
is ever committed per identity, and exactly one as soon as that
identity's debounce counter has reached `FRAME_THRESHOLD`, no matter
how many further qualifying frames are delivered afterwards. -/
theorem C1_commit_once_per_session (st : ServerState) (X : String)
    (frames : List FrameInput) :
    attCount (processFrames (start_registration st).1 frames) X ≤ 1 ∧
    (countsGe (processFrames (start_registration st).1 frames) X = true →
      attCount (processFrames (start_registration st).1 frames) X = 1) := by
  have hS : SessionInv (processFrames (start_registration st).1 frames) X :=
    processFrames_sessionInv frames _ X (start_registration_sessionInv st X)
  rw [SessionInv, attCount] at hS
  rw [attCount] at *
  constructor
  · rw [hS]
    split <;> omega
  · intro hge
    rw [hS, hge]
    simp

set_option maxRecDepth 40000 in
theorem C1_commit_once_per_session_witness :
    countsGe (processFrames (start_registration exState0).1 exFrames5) "s1"
      = true ∧
    attCount (processFrames (start_registration exState0).1 exFrames5) "s1"
      = 1 :=
  ⟨by decide,
   (C1_commit_once_per_session exState0 "s1" exFrames5).2 (by decide)⟩

/-- Claim C2: with a non-empty enrolled set, the matcher resolves a
detection to the identity recorded at the first index of minimal
distance when that minimal distance is under `TOLERANCE`, and to
"Unknown" otherwise; the rounded minimal distance is reported in both
cases.  Distances are carried squared; `sqrt_order_bridge` and
`sqrt_lt_TOLERANCE_iff` identify first-argmin and threshold decisions
on squared distances with those on Euclidean distances. -/
theorem C2_matcher_resolution (st : ServerState) (d : Detection)
    (hne : st.known_face_encodings ≠ []) (hInv : Inv st) :
    (best_match_index st d < (face_distances st d).length ∧
      (∀ j < (face_distances st d).length,
        best_distance st d ≤ nthD (face_distances st d) j) ∧
      (∀ j < best_match_index st d,
        best_distance st d < nthD (face_distances st d) j)) ∧
    (best_distance st d < qMul TOLERANCE TOLERANCE →
      ∃ m st', st.known_face_metadata.get? (best_match_index st d) = some m ∧
        processOneDetection st d
          = some (st',
              detOut m.name (some (roundDist2 (best_distance st d))) d)) ∧
    (¬ best_distance st d < qMul TOLERANCE TOLERANCE →
      processOneDetection st d
        = some (st,
            detOut "Unknown" (some (roundDist2 (best_distance st d))) d)) := by
  refine ⟨⟨?_, ?_, ?_⟩, ?_, ?_⟩
  · rw [best_match_index]
    exact argminIdx_lt_length _ (face_distances_ne_nil st d hne)
  · exact argminIdx_le _
  · exact argminIdx_first _
  · intro h1
    obtain ⟨m, c, hm, hc⟩ := meta_counts_of_inv st d hInv hne
    exact ⟨m, _, hm, pod_match st d m c hne h1 hm hc⟩
  · intro h1
    exact pod_far st d hne h1

set_option maxRecDepth 40000 in
theorem C2_matcher_resolution_witness :
    ∃ m st',
      exState1.known_face_metadata.get? (best_match_index exState1 exDetA)
        = some m ∧
      processOneDetection exState1 exDetA
        = some (st',
            detOut m.name (some (roundDist2 (best_distance exState1 exDetA)))
              exDetA) :=
  (C2_matcher_resolution exState1 exDetA (by decide) (by decide)).2.1 (by decide)

/-- Claim C3: while the embedding store is empty, every detection
resolves to "Unknown" with a null distance and the state — in
particular every debounce counter — is untouched, both per detection
and for a whole frame. -/
theorem C3_empty_store_unknown (st : ServerState)
    (h : st.known_face_encodings = []) :
    (∀ d, processOneDetection st d = some (st, detOut "Unknown" none d)) ∧
    (∀ ds, process_frame st (.image ds)
      = (st, .detected (ds.map (fun d => detOut "Unknown" none d)))) := by
  refine ⟨fun d => pod_empty st d h, ?_⟩
  have hdets : ∀ ds, processDetections st ds
      = (st, some (ds.map (fun d => detOut "Unknown" none d))) := by
    intro ds
    induction ds with
    | nil => rfl
    | cons d ds ih =>
      simp only [processDetections, pod_empty st d h, ih, List.map_cons]
  intro ds
  simp [process_frame, hdets ds]

theorem C3_empty_store_unknown_witness :
    processOneDetection (⟨[], [], [], [], []⟩ : ServerState) exDetA
      = some ((⟨[], [], [], [], []⟩ : ServerState), detOut "Unknown" none exDetA) :=
  (C3_empty_store_unknown ⟨[], [], [], [], []⟩ rfl).1 exDetA

/-- Claim C8: a frame whose bytes fail to decode produces the
frame-level error response and mutates nothing: counters, store and
attendance log are all unchanged. -/
theorem C8_decode_failure_pure (st : ServerState) :
    process_frame st .badImage = (st, .decodeFailure) := rfl

/-- Claim C9: a frame with zero detections leaves the whole state —
all counters and all attendance records — unchanged and returns an
empty detected list. -/
theorem C9_empty_frame_noop (st : ServerState) :
    process_frame st (.image []) = (st, .detected []) := rfl

/-- Claim C10: in every state reachable by any sequence of endpoint
calls, encodings and metadata have equal length and every metadata id
owns a debounce counter; consequently `process_frame` never ends in
the unhandled `IndexError`/`KeyError` exception of the metadata lookup
or the counter increment. -/
theorem C10_reachable_no_failure (st : ServerState) (h : Reachable st) :
    Inv st ∧ ∀ inp, (process_frame st inp).2 ≠ ProcessResult.crashed := by
  have hInv := reachable_inv st h
  exact ⟨hInv, fun inp => (process_frame_spec st inp hInv).2.2.2.2.1⟩

theorem C10_reachable_no_failure_witness :
    Inv (⟨[], [], [], [], []⟩ : ServerState) ∧
    ∀ inp, (process_frame (⟨[], [], [], [], []⟩ : ServerState) inp).2
      ≠ ProcessResult.crashed :=
  C10_reachable_no_failure _ (Reachable.init [] [])

theorem sum_map_eq_countP {α : Type} (g : α → ℕ) (l : List α)
    (h : ∀ a ∈ l, g a ≤ 1) :
    (l.map g).sum = l.countP (fun a => decide (0 < g a)) := by
  induction l with
  | nil => rfl
  | cons a l ih =>
    rw [List.map_cons, List.sum_cons, List.countP_cons,
      ih (fun b hb => h b (by simp [hb]))]
    have hle := h a (by simp)
    by_cases h0 : 0 < g a
    · rw [if_pos (by simpa using h0)]
      omega
    · rw [if_neg (by simpa using h0)]
      omega

/-- Claim C4: with `X`'s counter at 0 and frames each containing at
most one detection matching `X`, the counter after the sequence equals
the number of qualifying frames — so it equals `FRAME_THRESHOLD`
exactly when the `FRAME_THRESHOLD`-th qualifying frame has been
delivered, no fewer and no more; every matched detection increments
the counter by exactly 1; and no step ever decreases a counter. -/
theorem C4_debounce_counting (st : ServerState) (X : String)
    (frames : List FrameInput) (hInv : Inv st)
    (hc0 : dictGet? st.student_frame_counts X = some 0)
    (hone : ∀ f ∈ frames, frameMatches st X f ≤ 1) :
    dictGet? (processFrames st frames).student_frame_counts X
      = some (frames.countP (fun f => decide (0 < frameMatches st X f))) ∧
    (dictGet? (processFrames st frames).student_frame_counts X
        = some FRAME_THRESHOLD ↔
      frames.countP (fun f => decide (0 < frameMatches st X f))
        = FRAME_THRESHOLD) ∧
    (∀ (s : ServerState) (d : Detection) (c : ℕ) (s' : ServerState) (out : DetOut),
      processOneDetection s d = some (s', out) → Inv s →
      matchedId s d = some X → dictGet? s.student_frame_counts X = some c →
      dictGet? s'.student_frame_counts X = some (c + 1)) ∧
    (∀ (s : ServerState) (inp : FrameInput) (c : ℕ),
      dictGet? s.student_frame_counts X = some c →
      ∃ c', dictGet? (process_frame s inp).1.student_frame_counts X = some c' ∧
        c ≤ c') := by
  have h1 : dictGet? (processFrames st frames).student_frame_counts X
      = some (frames.countP (fun f => decide (0 < frameMatches st X f))) := by
    have hspec := (processFrames_spec frames st hInv).2.2.2 X 0 hc0
    rw [hspec, sum_map_eq_countP (frameMatches st X) frames hone, Nat.zero_add]
  refine ⟨h1, ?_, ?_, ?_⟩
  · rw [h1]
    exact ⟨fun hh => by injection hh, fun hh => by rw [hh]⟩
  · intro s d c s' out hpod hInvs hmid hc
    have hex := pod_counts_exact s d s' out hpod hInvs X c hc
    rw [hex, if_pos hmid]
  · intro s inp c hc
    exact process_frame_monotone s inp X c hc

set_option maxRecDepth 40000 in
theorem C4_debounce_counting_witness :
    dictGet? (processFrames exState1 exFrames5).student_frame_counts "s1"
      = some FRAME_THRESHOLD := by
  have h := (C4_debounce_counting exState1 "s1" exFrames5
    (by decide) (by decide) (by decide)).1
  rw [h]
  decide

/-- Claim C5: a successful `start_registration` produces exactly the
loaded identities as counter keys, each at 0, the loaded embeddings
and metadata in storage order, an empty attendance log and an
unchanged `students` table; the first detection matching any identity
after the reset sets its counter to 1 and commits nothing, so a
previously committed identity starts a fresh debounce sequence. -/
theorem C5_session_reset (st : ServerState)
    (hwf : ∀ s ∈ st.students, s.encoding_binary.nbytes % 8 = 0) :
    (start_registration st).2 = true ∧
    (start_registration st).1.known_face_encodings
      = st.students.map (fun s => s.encoding_binary.vals) ∧
    (start_registration st).1.known_face_metadata
      = st.students.map (fun s => (⟨s.student_name, s.student_id⟩ : Meta)) ∧
    (start_registration st).1.attendance = [] ∧
    (start_registration st).1.students = st.students ∧
    (∀ X, dictGet? (start_registration st).1.student_frame_counts X
      = if ∃ s ∈ st.students, s.student_id = X then some 0 else none) ∧
    (∀ d X, matchedId (start_registration st).1 d = some X →
      ∃ st' out, processOneDetection (start_registration st).1 d
          = some (st', out) ∧
        dictGet? st'.student_frame_counts X = some 1 ∧
        st'.attendance = []) := by
  have hload := loadStudents_ok st.students
    { st with
        student_frame_counts := [],
        known_face_encodings := [],
        known_face_metadata := [],
        attendance := [] } hwf
  have h2 : (start_registration st).2 = true := by
    rw [start_registration, hload]
  have henc : (start_registration st).1.known_face_encodings
      = st.students.map (fun s => s.encoding_binary.vals) := by
    rw [start_registration, hload]
    simp
  have hmeta : (start_registration st).1.known_face_metadata
      = st.students.map (fun s => (⟨s.student_name, s.student_id⟩ : Meta)) := by
    rw [start_registration, hload]
    simp
  have hatt : (start_registration st).1.attendance = [] :=
    start_registration_attendance st
  have hcounts : ∀ X, dictGet? (start_registration st).1.student_frame_counts X
      = if ∃ s ∈ st.students, s.student_id = X then some 0 else none := by
    intro X
    rw [start_registration, hload]
    show dictGet? (st.students.foldl (fun d s => dictSet d s.student_id 0) []) X
      = if ∃ s ∈ st.students, s.student_id = X then some 0 else none
    rw [foldl_dictSet_zero_get]
    split <;> rfl
  refine ⟨h2, henc, hmeta, hatt, start_registration_students st, hcounts, ?_⟩
  intro d X hmid
  rw [matchedId] at hmid
  split at hmid
  case isFalse => exact absurd hmid (by simp)
  case isTrue hcond =>
    obtain ⟨m, hm, hmX⟩ := Option.map_eq_some'.mp hmid
    have hne : (start_registration st).1.known_face_encodings ≠ [] := by
      intro hnil
      have := hcond.1
      rw [face_distances_length, hnil] at this
      simp at this
    have hmem : m ∈ (start_registration st).1.known_face_metadata :=
      List.get?_mem hm
    rw [hmeta] at hmem
    obtain ⟨s, hs, hsm⟩ := List.mem_map.mp hmem
    have hidX : s.student_id = X := by
      rw [← hmX, ← hsm]
    have hc : dictGet? (start_registration st).1.student_frame_counts m.id
        = some 0 := by
      rw [hcounts]
      rw [if_pos ⟨s, hs, by rw [← hsm]⟩]
    have hpod := pod_match (start_registration st).1 d m 0 hne hcond.2 hm hc
    refine ⟨_, _, hpod, ?_, ?_⟩
    · show dictGet?
        (dictSet (start_registration st).1.student_frame_counts m.id (0 + 1)) X
          = some 1
      rw [← hmX]
      exact dictGet?_dictSet_self _ _ _
    · show (if 0 + 1 = FRAME_THRESHOLD then
          insertRegistration (start_registration st).1.attendance m.id m.name
        else (start_registration st).1.attendance) = []
      rw [if_neg (by decide), hatt]

theorem C5_session_reset_witness :
    (start_registration exState0).2 = true ∧
    dictGet? (start_registration exState0).1.student_frame_counts "s1"
      = some 0 := by
  have h := C5_session_reset exState0 (by decide)
  refine ⟨h.1, ?_⟩
  rw [h.2.2.2.2.2.1 "s1"]
  decide

/-- Claim C6: when the threshold-crossing insert conflicts with an
attendance row that already exists, the failure is caught and is a
no-op: the table is unchanged, the counter still advances to the
threshold, the remaining detections of the frame are processed, and
the response is a normal `detected` payload with no error. -/
theorem C6_conflict_is_noop (st : ServerState) (d : Detection) (X : String)
    (rest : List Detection) (hInv : Inv st)
    (hmid : matchedId st d = some X)
    (hc : dictGet? st.student_frame_counts X = some (FRAME_THRESHOLD - 1))
    (hconf : regCount st.attendance X ≠ 0) :
    ∃ st1 out, processOneDetection st d = some (st1, out) ∧
      st1.attendance = st.attendance ∧
      dictGet? st1.student_frame_counts X = some FRAME_THRESHOLD ∧
      ∃ st2 outs, process_frame st (.image (d :: rest))
          = (st2, .detected (out :: outs)) ∧
        outs.length = rest.length := by
  rw [matchedId] at hmid
  split at hmid
  case isFalse => exact absurd hmid (by simp)
  case isTrue hcond =>
    obtain ⟨m, hm, hmX⟩ := Option.map_eq_some'.mp hmid
    have hne : st.known_face_encodings ≠ [] := by
      intro hnil
      have := hcond.1
      rw [face_distances_length, hnil] at this
      simp at this
    have hcm : dictGet? st.student_frame_counts m.id
        = some (FRAME_THRESHOLD - 1) := by
      rw [hmX]
      exact hc
    have hpod := pod_match st d m (FRAME_THRESHOLD - 1) hne hcond.2 hm hcm
    have h5 : FRAME_THRESHOLD - 1 + 1 = FRAME_THRESHOLD := by decide
    refine ⟨_, _, hpod, ?_, ?_, ?_⟩
    · show (if FRAME_THRESHOLD - 1 + 1 = FRAME_THRESHOLD then
          insertRegistration st.attendance m.id m.name
        else st.attendance) = st.attendance
      rw [if_pos h5]
      apply insertRegistration_present
      rw [hmX]
      exact hconf
    · show dictGet?
        (dictSet st.student_frame_counts m.id (FRAME_THRESHOLD - 1 + 1)) X
          = some FRAME_THRESHOLD
      rw [← hmX, dictGet?_dictSet_self, h5]
    · have hInv1 : Inv ({ st with
          student_frame_counts :=
            dictSet st.student_frame_counts m.id (FRAME_THRESHOLD - 1 + 1),
          attendance :=
            if FRAME_THRESHOLD - 1 + 1 = FRAME_THRESHOLD then
              insertRegistration st.attendance m.id m.name
            else st.attendance }) :=
        pod_inv st d _ _ hpod hInv
      obtain ⟨st2, outs, hrec, hlen, _, _, _, _, _⟩ :=
        processDetections_spec rest _ hInv1
      refine ⟨st2, outs, ?_, hlen⟩
      simp only [process_frame, processDetections, hpod, hrec]

set_option maxRecDepth 40000 in
theorem C6_conflict_is_noop_witness :
    ∃ st1 out, processOneDetection exStateC6 exDetA = some (st1, out) ∧
      st1.attendance = exStateC6.attendance ∧
      dictGet? st1.student_frame_counts "s1" = some FRAME_THRESHOLD ∧
      ∃ st2 outs, process_frame exStateC6 (.image (exDetA :: [exDetFar]))
          = (st2, .detected (out :: outs)) ∧
        outs.length = [exDetFar].length :=
  C6_conflict_is_noop exStateC6 exDetA "s1" [exDetFar]
    (by decide) (by decide) (by decide) (by decide)

/-- Claim C7 is violated by the code: `np.frombuffer` is called with
no width check at all.  First conjunct: an 8-byte blob (one float64)
and a 16-byte blob (two float64s) load together with success, leaving
embeddings of different widths in the same store — a wrong-width blob
whose byte length is a multiple of 8 is silently mis-decoded, neither
skipped nor aborted.  Second conjunct: a 12-byte blob raises
`ValueError`, aborting the whole load midway with the earlier student
already loaded — so the failure branch is neither the documented
skip-one-identity policy nor a clean whole-load abort. -/
theorem C7_silent_misdecode_evidence :
    (start_registration
        ⟨[], [], [], [⟨"s1", "Alice", ⟨8, [1]⟩⟩, ⟨"s2", "Bob", ⟨16, [1, 2]⟩⟩], []⟩
      = (⟨[("s1", 0), ("s2", 0)], [[1], [1, 2]],
          [⟨"Alice", "s1"⟩, ⟨"Bob", "s2"⟩],
          [⟨"s1", "Alice", ⟨8, [1]⟩⟩, ⟨"s2", "Bob", ⟨16, [1, 2]⟩⟩], []⟩,
         true)) ∧
    (start_registration
        ⟨[], [], [], [⟨"s1", "Alice", ⟨8, [1]⟩⟩, ⟨"s2", "Bob", ⟨12, [1]⟩⟩], []⟩
      = (⟨[("s1", 0)], [[1]], [⟨"Alice", "s1"⟩],
          [⟨"s1", "Alice", ⟨8, [1]⟩⟩, ⟨"s2", "Bob", ⟨12, [1]⟩⟩], []⟩,
         false)) := by
  constructor <;> decide

end SFRA
